import Mathlib

/-!
Verification development for the grades-pipeline importer.

The Python sources are embedded shallowly:

* a worksheet (`Sheet`) is the matrix returned by `ws.get_all_values()`:
  a list of rows, each row a list of cell strings; the physical effects
  `clear` / `update("1:1", ...)` / `append_rows` are modelled by the
  corresponding pure rebuilding of that matrix;
* a scraped record (`Record`) is a Python dict with string values, read
  through `r.get(k, "")`; it is modelled as a total function
  `String → String` returning `""` for absent keys (Python `None` and `""`
  are both falsy, and every read in the source either uses a default or
  feeds a falsy test, so this identification is faithful);
* Python string operations are modelled on `List Char`; lowercasing is the
  ASCII case map (`Char.toLower`), which agrees with `str.lower` on the
  ASCII data this pipeline handles; string `<` is code-point lexicographic
  comparison, as in Python.
-/

set_option maxHeartbeats 1000000

namespace GradesPipeline

/-- A sheet row: one line of `ws.get_all_values()`. -/
abbrev Row := List String

/-- A worksheet state: `ws.get_all_values()`, header row included. -/
abbrev Sheet := List Row

/-- A scraped record dict with `r.get(k, "")` read semantics. -/
abbrev Record := String → String

/-- Models `main.py` HEADERS: the canonical sheet schema. -/
def HEADERS : List String :=
  ["ImportedAt", "Student", "Period", "Course", "Teacher",
   "DueDate", "AssignedDate", "Assignment", "PtsPossible",
   "Score", "Pct", "Status", "Comments", "SourceURL"]

/-- Python `<` on strings, char by char: code-point lexicographic. -/
def charListLt : List Char → List Char → Bool
  | [], [] => false
  | [], _ :: _ => true
  | _ :: _, [] => false
  | a :: as, b :: bs => if a < b then true else if b < a then false else charListLt as bs

/-- Python string comparison `a < b`. -/
def pyStrLt (a b : String) : Bool := charListLt a.data b.data

/-- Python `s.strip()`: drop leading and trailing whitespace. -/
def pyStrip (l : List Char) : List Char :=
  ((l.dropWhile Char.isWhitespace).reverse.dropWhile Char.isWhitespace).reverse

/-- Helper for `pyWords`: `acc` holds the reversed current word. -/
def pyWordsAux : List Char → List Char → List (List Char)
  | [], acc => if acc = [] then [] else [acc.reverse]
  | c :: cs, acc =>
    if c.isWhitespace then
      (if acc = [] then pyWordsAux cs [] else acc.reverse :: pyWordsAux cs [])
    else pyWordsAux cs (c :: acc)

/-- Python `s.split()` with no argument: maximal nonempty runs of
non-whitespace characters. -/
def pyWords (l : List Char) : List (List Char) := pyWordsAux l []

/-- Python `" ".join(l.split()).lower()`. -/
def joinLower (l : List Char) : String :=
  ⟨(List.intercalate [' '] (pyWords l)).map Char.toLower⟩

/-- Models `main.py _norm_text`: strip, collapse whitespace, lowercase. -/
def _norm_text (val : String) : String := joinLower (pyStrip val.data)

/-- Python `s.lower()` (ASCII fragment). -/
def pyLower (l : List Char) : String := ⟨l.map Char.toLower⟩

/-- Numeric value of an all-digit character list (`int` of a matched
`strptime` field); `none` when empty or not all digits. -/
def digitsVal (l : List Char) : Option Nat :=
  if l ≠ [] ∧ l.all Char.isDigit then
    some (l.foldl (fun a c => a * 10 + (c.toNat - 48)) 0)
  else none

/-- Split a character list at every occurrence of `sep` (fields may be
empty); used to model `strptime` literal separators. -/
def splitSep (sep : Char) : List Char → List (List Char)
  | [] => [[]]
  | c :: cs =>
    if c = sep then [] :: splitSep sep cs
    else
      match splitSep sep cs with
      | [] => [[c]]
      | f :: fs => (c :: f) :: fs

/-- Gregorian leap year, as `datetime` validates it. -/
def isLeap (y : Nat) : Bool := y % 4 = 0 && (y % 100 != 0 || y % 400 = 0)

/-- Days in a month, as `datetime` validates day-of-month. -/
def daysInMonth (y m : Nat) : Nat :=
  if m = 2 then (if isLeap y then 29 else 28)
  else if m = 4 ∨ m = 6 ∨ m = 9 ∨ m = 11 then 30
  else 31

/-- A 1-2 digit `strptime` field (`%m` or `%d`) with value bounds. -/
def parseField2 (l : List Char) (lo hi : Nat) : Option Nat :=
  if l.length ≤ 2 then
    (digitsVal l).bind (fun v => if lo ≤ v ∧ v ≤ hi then some v else none)
  else none

/-- A `strptime` `%Y` field: exactly four digits. -/
def parseY4 (l : List Char) : Option Nat :=
  if l.length = 4 then digitsVal l else none

/-- A `strptime` `%y` field: two digits, with the Python century rule
(`00`-`68` → 2000s, `69`-`99` → 1900s). -/
def parseY2 (l : List Char) : Option Nat :=
  if l.length = 2 then
    (digitsVal l).map (fun v => if v ≤ 68 then 2000 + v else 1900 + v)
  else none

/-- Models `datetime` constructor validation: year in range, day fits month. -/
def validYMD (y m d : Nat) : Bool :=
  decide (1 ≤ y) && decide (y ≤ 9999) && decide (d ≤ daysInMonth y m)

/-- Left-pad a digit string with zeros to width `w`. -/
def padZeros (w : Nat) (l : List Char) : List Char :=
  List.replicate (w - l.length) '0' ++ l

/-- Models `dt.strftime("%Y-%m-%d")`. -/
def isoOf (y m d : Nat) : String :=
  ⟨padZeros 4 (Nat.toDigits 10 y) ++ '-' :: padZeros 2 (Nat.toDigits 10 m) ++
   '-' :: padZeros 2 (Nat.toDigits 10 d)⟩

/-- Models `strptime(s, "%m/%d/%Y")` followed by `strftime("%Y-%m-%d")`. -/
def parse_mdY (s : List Char) : Option String :=
  match splitSep '/' s with
  | [mf, df, yf] => do
      let m ← parseField2 mf 1 12
      let d ← parseField2 df 1 31
      let y ← parseY4 yf
      if validYMD y m d then some (isoOf y m d) else none
  | _ => none

/-- Models `strptime(s, "%m/%d/%y")` followed by `strftime("%Y-%m-%d")`. -/
def parse_mdy (s : List Char) : Option String :=
  match splitSep '/' s with
  | [mf, df, yf] => do
      let m ← parseField2 mf 1 12
      let d ← parseField2 df 1 31
      let y ← parseY2 yf
      if validYMD y m d then some (isoOf y m d) else none
  | _ => none

/-- Models `strptime(s, "%Y-%m-%d")` followed by `strftime("%Y-%m-%d")`. -/
def parse_Ymd_dash (s : List Char) : Option String :=
  match splitSep '-' s with
  | [yf, mf, df] => do
      let y ← parseY4 yf
      let m ← parseField2 mf 1 12
      let d ← parseField2 df 1 31
      if validYMD y m d then some (isoOf y m d) else none
  | _ => none

/-- Models `strptime(s, "%Y/%m/%d")` followed by `strftime("%Y-%m-%d")`. -/
def parse_Ymd_slash (s : List Char) : Option String :=
  match splitSep '/' s with
  | [yf, mf, df] => do
      let y ← parseY4 yf
      let m ← parseField2 mf 1 12
      let d ← parseField2 df 1 31
      if validYMD y m d then some (isoOf y m d) else none
  | _ => none

/-- Models `main.py _norm_date`: empty/sentinel passthrough, then the four
date formats in order, then the lowercase-and-collapse fallback. -/
def _norm_date (val : String) : String :=
  if val = "" then ""
  else
    let s : List Char := pyStrip val.data
    let sl : String := pyLower s
    if s = [] ∨ sl ∈ (["missing", "n/a", "na", "not available"] : List String) then sl
    else
      match ((parse_mdY s).orElse (fun _ => parse_mdy s)).orElse
              (fun _ => (parse_Ymd_dash s).orElse (fun _ => parse_Ymd_slash s)) with
      | some iso => iso
      | none => joinLower s

/-- The dedup key tuple: (Student, Period, Course, DueDate), normalized. -/
abbrev DedupKey := String × String × String × String

/-- Models `main.py key_from_row`. -/
def key_from_row (row : Record) : DedupKey :=
  (_norm_text (row "Student"), _norm_text (row "Period"),
   _norm_text (row "Course"), _norm_date (row "DueDate"))

/-- Models `idx.get(name, -1)` where `idx = {name: header.index(name) for name in
HEADERS if name in header}`. -/
def colIdx (header : List String) (name : String) : Int :=
  if name ∈ HEADERS ∧ name ∈ header then ((List.indexOf name header : Nat) : Int) else -1

/-- Models `row[i] if 0 <= i < len(row) else ""`, with `i = colIdx header name`:
the ragged-row guard used by `get_existing_keys` and
`dedupe_entire_sheet`. -/
def cellAt (header : List String) (row : Row) (name : String) : String :=
  let i := colIdx header name
  if 0 ≤ i ∧ i < (row.length : Int) then row.getD i.toNat "" else ""

/-- The 4-field `row_obj` dict built from a sheet row. -/
def sheetRowRecord (header : List String) (row : Row) : Record := fun name =>
  if name = "Student" ∨ name = "Period" ∨ name = "Course" ∨ name = "DueDate"
  then cellAt header row name else ""

/-- The dedup key of a sheet row, read through the sheet's header. -/
def rowKey (header : List String) (row : Row) : DedupKey :=
  key_from_row (sheetRowRecord header row)

/-- Models `main.py get_existing_keys`: one key per data row (the Python set is
modelled as this list up to membership). -/
def get_existing_keys (ws : Sheet) : List DedupKey :=
  match ws with
  | [] => []
  | header :: rows => rows.map (rowKey header)

/-- Models `winners.get(k)` on the insertion-ordered Python dict. -/
def lookupKey : List (DedupKey × Row) → DedupKey → Option Row
  | [], _ => none
  | (k, v) :: rest, q => if k = q then some v else lookupKey rest q

/-- Models `winners[k] = v` on the insertion-ordered Python dict: replace in
place when the key is present, append otherwise. -/
def storeKey : List (DedupKey × Row) → DedupKey → Row → List (DedupKey × Row)
  | [], q, v => [(q, v)]
  | (k, w) :: rest, q, v =>
      if k = q then (q, v) :: rest else (k, w) :: storeKey rest q v

/-- One iteration of the `dedupe_entire_sheet` loop body. `if not
existing` is a falsy test, so an empty stored row is treated as absent. -/
def dedupeStep (header : List String) (st : List (DedupKey × Row) × Nat)
    (row : Row) : List (DedupKey × Row) × Nat :=
  let k := rowKey header row
  match lookupKey st.1 k with
  | none => (storeKey st.1 k row, st.2)
  | some e =>
      if e = [] then (storeKey st.1 k row, st.2)
      else if pyStrLt (cellAt header e "ImportedAt") (cellAt header row "ImportedAt")
      then (storeKey st.1 k row, st.2)
      else (st.1, st.2 + 1)

/-- Insert one row into a descending-by-timestamp list, keeping earlier
rows first on ties (the stability contract of Python `sorted`). -/
def insertByTs (tsOf : Row → String) (x : Row) : List Row → List Row
  | [] => [x]
  | y :: ys => if pyStrLt (tsOf x) (tsOf y) then y :: insertByTs tsOf x ys
               else x :: y :: ys

/-- Models `sorted(rows, key=ts, reverse=True)`: stable descending sort. -/
def sortByTsDesc (tsOf : Row → String) : List Row → List Row
  | [] => []
  | x :: xs => insertByTs tsOf x (sortByTsDesc tsOf xs)

/-- Models `main.py dedupe_entire_sheet`, returning the rebuilt sheet (after
`clear`, header rewrite and `append_rows`) and the `skipped` counter. -/
def dedupe_entire_sheet (ws : Sheet) : Sheet × Nat :=
  match ws with
  | [] => ([], 0)
  | header :: dataRows =>
    let res := dataRows.foldl (dedupeStep header) ([], 0)
    let deduped := sortByTsDesc (fun r => cellAt header r "ImportedAt")
                     (res.1.map Prod.snd)
    (header :: deduped, res.2)

/-- Whether `dedupe_entire_sheet` reaches `ws.clear()`: every path after
the `if not values` guard does. -/
def dedupe_clears (ws : Sheet) : Bool := !ws.isEmpty

/-- Models `main.py rows_to_matrix`: dict rows to HEADERS order (`str(x or "")`
is the identity on the string values this model carries). -/
def rows_to_matrix (rows : List Record) : List Row :=
  rows.map (fun r => HEADERS.map (fun h => r h))

/-- The sheet-facing part of `main.py main`: rebuild the existing-key
index, filter the batch against it, append the survivors, then compact.
Returns the final sheet and the `Imported {len(to_add)}` count. -/
def import_run (records : List Record) (ws : Sheet) : Sheet × Nat :=
  let existing := get_existing_keys ws
  let to_add := records.filter (fun r => decide (key_from_row r ∉ existing))
  let ws1 := if to_add.isEmpty then ws else ws ++ rows_to_matrix to_add
  ((dedupe_entire_sheet ws1).1, to_add.length)

/-- Dict assignment `r[k] = v` on a record. -/
def rset (r : Record) (k v : String) : Record := fun q => if q = k then v else r q

/-- The per-record stamping statement in `main.py main`:
`r["ImportedAt"] = r.get("ImportedAt") or imported_at` (absent and `""`
are both falsy). -/
def stamp_record (r : Record) (imported_at : String) : Record :=
  rset r "ImportedAt" (if r "ImportedAt" = "" then imported_at else r "ImportedAt")

/-- Models `main.py ensure_worksheet`: return the existing worksheet unchanged;
only a newly created worksheet gets the canonical header row. -/
def ensure_worksheet : Option Sheet → Sheet
  | some ws => ws
  | none => [HEADERS]

/-- Append a key to an accumulator unless already present: how the set of
`winners` dict keys grows across the `dedupe_entire_sheet` loop. -/
def addNew (ks : List DedupKey) (k : DedupKey) : List DedupKey :=
  if k ∈ ks then ks else ks ++ [k]

/-- The distinct keys of a key list, first occurrence first: the key set
(and insertion order) of the `winners` dict after the loop. -/
def firstKeys (l : List DedupKey) : List DedupKey := l.foldl addNew []

/-- Rows in descending `ImportedAt` order (adjacent pairs non-increasing):
the order contract of the compacted sheet body. -/
def RowsSortedDesc (tsOf : Row → String) (l : List Row) : Prop :=
  List.Chain' (fun x y => pyStrLt (tsOf x) (tsOf y) = false) l

/-! ### Dynamic values: the `run_scrape` → `main` interface

`scraper.run_scrape` returns the pair `(all_rows, metrics)`; `main`
binds that pair to `rows` and runs the stamping loop over it. Python's
dynamic typing at that boundary is embedded as `PyVal`. -/

/-- A Python runtime value as far as this boundary needs: strings, ints,
lists, tuples, string-keyed dicts and `None`. -/
inductive PyVal where
  | pstr (s : String)
  | pint (n : Int)
  | plist (xs : List PyVal)
  | ptuple (xs : List PyVal)
  | pdict (entries : List (String × PyVal))
  | pnone
  deriving Repr

/-- Python truthiness of a `PyVal`. -/
def PyVal.truthy : PyVal → Bool
  | .pstr s => !(s = "")
  | .pint n => !(n = 0)
  | .plist xs => !xs.isEmpty
  | .ptuple xs => !xs.isEmpty
  | .pdict es => !es.isEmpty
  | .pnone => false

/-- The runtime type name, as it appears in Python error messages. -/
def PyVal.typeName : PyVal → String
  | .pstr _ => "str"
  | .pint _ => "int"
  | .plist _ => "list"
  | .ptuple _ => "tuple"
  | .pdict _ => "dict"
  | .pnone => "NoneType"

/-- Iterating a value (`for r in rows`): lists and tuples yield their
elements; everything else this boundary can see is a runtime error. -/
def pyIterate : PyVal → Except String (List PyVal)
  | .plist xs => .ok xs
  | .ptuple xs => .ok xs
  | v => .error ("TypeError: " ++ v.typeName ++ " object is not iterable")

/-- The call `r.get(k)`: defined on dicts (default `None`); on any other
value the attribute lookup `r.get` raises `AttributeError`. -/
def pyDictGet : PyVal → String → Except String PyVal
  | .pdict es, k => .ok ((es.lookup k).getD .pnone)
  | v, _ => .error ("AttributeError: " ++ v.typeName ++ " object has no attribute get")

/-- Store under a string key in a dict entry list, preserving insertion
order. -/
def pyEntriesSet : List (String × PyVal) → String → PyVal → List (String × PyVal)
  | [], k, v => [(k, v)]
  | (k1, v1) :: rest, k, v =>
      if k1 = k then (k, v) :: rest else (k1, v1) :: pyEntriesSet rest k v

/-- The subscript assignment `r[k] = v`: defined on dicts; on a list a
string index raises `TypeError`. -/
def pySetItem : PyVal → String → PyVal → Except String PyVal
  | .pdict es, k, v => .ok (.pdict (pyEntriesSet es k v))
  | v, _, _ => .error ("TypeError: " ++ v.typeName ++
      " indices must be integers or slices, not str")

/-- Models `r.setdefault(h, "")`: defined on dicts, error elsewhere. -/
def pySetdefault : PyVal → String → PyVal → Except String PyVal
  | .pdict es, k, v =>
      .ok (.pdict (if (es.lookup k).isSome then es else es ++ [(k, v)]))
  | v, _, _ => .error ("AttributeError: " ++ v.typeName ++
      " object has no attribute setdefault")

/-- The body of the stamping loop in `main` for one element `r`:
`r["ImportedAt"] = r.get("ImportedAt") or imported_at` followed by
`for h in HEADERS: r.setdefault(h, "")` (the in-place mutation is
modelled by returning the updated value). -/
def stampBody (imported_at : String) (r : PyVal) : Except String PyVal := do
  let g ← pyDictGet r "ImportedAt"
  let r1 ← pySetItem r "ImportedAt" (if g.truthy then g else .pstr imported_at)
  HEADERS.foldlM (fun acc h => pySetdefault acc h (.pstr "")) r1

/-- The whole stamping loop `for r in rows: ...` over the value `main`
bound to `rows`. -/
def stampLoop (rows : PyVal) (imported_at : String) : Except String (List PyVal) := do
  let elems ← pyIterate rows
  elems.mapM (stampBody imported_at)

/-- Read one stamped element back as a `Record`; only a string-valued
dict qualifies. -/
def pyRecord : PyVal → Except String Record
  | .pdict es => .ok (fun k =>
      match es.lookup k with
      | some (.pstr s) => s
      | _ => "")
  | v => .error ("TypeError: " ++ v.typeName ++ " is not a record")

/-- Models `main` from the scrape result onward: stamp the records, then run the
sheet stage (`get_existing_keys` / filter / append / compact). On a
runtime error the sheet is never touched. -/
def main_on (scrape : PyVal) (ws : Sheet) (imported_at : String) :
    Sheet × Except String Nat :=
  match stampLoop scrape imported_at with
  | .error e => (ws, .error e)
  | .ok stamped =>
      match stamped.mapM pyRecord with
      | .error e => (ws, .error e)
      | .ok recs =>
          let res := import_run recs ws
          (res.1, .ok res.2)

/-- The value `run_scrape` actually returns (scraper.py:474,523): the
tuple `(all_rows, metrics)` where `all_rows` is a list of lists of cell
strings and `metrics` is a str→int dict. -/
def run_scrape_result (rows : List (List String)) (metrics : List (String × Int)) : PyVal :=
  .ptuple [.plist (rows.map (fun row => .plist (row.map .pstr))),
           .pdict (metrics.map (fun p => (p.1, .pint p.2)))]

/-! ### Character-level lemmas -/

theorem char_eq_of_toNat_eq {a b : Char} (h : a.toNat = b.toNat) : a = b :=
  Char.eq_of_val_eq (UInt32.ext h)

theorem char_toNat_ofNat (m : Nat) (h : m.isValidChar) : (Char.ofNat m).toNat = m := by
  simp [Char.ofNat, dif_pos h]; rfl

theorem isWhitespace_eq_false_of_toNat {c : Char} (h32 : c.toNat ≠ 32)
    (h9 : c.toNat ≠ 9) (h13 : c.toNat ≠ 13) (h10 : c.toNat ≠ 10) :
    c.isWhitespace = false := by
  simp only [Char.isWhitespace, Bool.or_eq_false_iff, decide_eq_false_iff_not]
  and_intros <;> intro hc <;> subst hc <;>
    first
    | exact h32 (by decide)
    | exact h9 (by decide)
    | exact h13 (by decide)
    | exact h10 (by decide)

theorem toLower_eq_shift (c : Char) (h : c.toNat ≥ 65 ∧ c.toNat ≤ 90) :
    c.toLower = Char.ofNat (c.toNat + 32) := by
  unfold Char.toLower
  show (if c.toNat ≥ 65 ∧ c.toNat ≤ 90 then Char.ofNat (c.toNat + 32) else c) = _
  exact if_pos h

theorem toLower_eq_self (c : Char) (h : ¬(c.toNat ≥ 65 ∧ c.toNat ≤ 90)) :
    c.toLower = c := by
  unfold Char.toLower
  show (if c.toNat ≥ 65 ∧ c.toNat ≤ 90 then Char.ofNat (c.toNat + 32) else c) = _
  exact if_neg h

theorem toLower_isWhitespace (c : Char) :
    (Char.toLower c).isWhitespace = c.isWhitespace := by
  by_cases h : c.toNat ≥ 65 ∧ c.toNat ≤ 90
  · rw [toLower_eq_shift c h]
    have hv : (c.toNat + 32).isValidChar := Or.inl (by omega)
    have h1 : (Char.ofNat (c.toNat + 32)).toNat = c.toNat + 32 := char_toNat_ofNat _ hv
    rw [isWhitespace_eq_false_of_toNat (by omega) (by omega) (by omega) (by omega),
        isWhitespace_eq_false_of_toNat (c := c) (by omega) (by omega) (by omega) (by omega)]
  · rw [toLower_eq_self c h]

theorem toLower_toLower (c : Char) : c.toLower.toLower = c.toLower := by
  by_cases h : c.toNat ≥ 65 ∧ c.toNat ≤ 90
  · rw [toLower_eq_shift c h]
    have hv : (c.toNat + 32).isValidChar := Or.inl (by omega)
    have h1 : (Char.ofNat (c.toNat + 32)).toNat = c.toNat + 32 := char_toNat_ofNat _ hv
    exact toLower_eq_self _ (by omega)
  · rw [toLower_eq_self c h]
    exact toLower_eq_self c h

/-! ### `pyWords` and `_norm_text` lemmas -/

theorem pyWordsAux_map_toLower (l : List Char) : ∀ acc : List Char,
    pyWordsAux (l.map Char.toLower) (acc.map Char.toLower) =
      (pyWordsAux l acc).map (List.map Char.toLower) := by
  induction l with
  | nil =>
    intro acc
    simp only [List.map_nil, pyWordsAux, List.map_eq_nil_iff]
    by_cases h : acc = []
    · simp [h, pyWordsAux]
    · simp [h, pyWordsAux, List.map_reverse]
  | cons c cs ih =>
    intro acc
    simp only [List.map_cons, pyWordsAux, toLower_isWhitespace]
    by_cases hws : c.isWhitespace
    · simp only [hws, if_true]
      by_cases h : acc = []
      · subst h
        simpa using ih []
      · rw [if_neg h, if_neg (by simpa [List.map_eq_nil_iff] using h)]
        have := ih []
        simp only [List.map_nil] at this
        simp [this, List.map_reverse]
    · simp only [hws, if_false, Bool.false_eq_true]
      have := ih (c :: acc)
      simpa using this

theorem pyWordsAux_allWs (b : List Char) (hb : ∀ c ∈ b, c.isWhitespace = true) :
    ∀ acc : List Char, pyWordsAux b acc = if acc = [] then [] else [acc.reverse] := by
  induction b with
  | nil => intro acc; rfl
  | cons c cs ih =>
    intro acc
    have hc : c.isWhitespace = true := hb c (List.mem_cons_self c cs)
    have hcs : ∀ x ∈ cs, x.isWhitespace = true := fun x hx => hb x (List.mem_cons_of_mem c hx)
    simp only [pyWordsAux, hc, if_true]
    by_cases h : acc = []
    · simp [h, ih hcs]
    · simp [h, ih hcs]

theorem pyWordsAux_append_ws (l b : List Char)
    (hb : ∀ c ∈ b, c.isWhitespace = true) :
    ∀ acc : List Char, pyWordsAux (l ++ b) acc = pyWordsAux l acc := by
  induction l with
  | nil =>
    intro acc
    rw [List.nil_append, pyWordsAux_allWs b hb acc]
    rfl
  | cons c cs ih =>
    intro acc
    simp only [List.cons_append, pyWordsAux]
    by_cases hws : c.isWhitespace
    · simp [hws, ih]
    · simp [hws, ih]

theorem pyWordsAux_ws_cons (a l : List Char)
    (ha : ∀ c ∈ a, c.isWhitespace = true) :
    pyWordsAux (a ++ l) [] = pyWordsAux l [] := by
  induction a with
  | nil => rfl
  | cons c cs ih =>
    have hc : c.isWhitespace = true := ha c (List.mem_cons_self c cs)
    have hcs : ∀ x ∈ cs, x.isWhitespace = true := fun x hx => ha x (List.mem_cons_of_mem c hx)
    simp only [List.cons_append, pyWordsAux, hc, if_true, if_pos rfl]
    exact ih hcs

theorem pyWords_strip (l : List Char) : pyWords (pyStrip l) = pyWords l := by
  unfold pyWords pyStrip
  have h1 : pyWordsAux l [] = pyWordsAux (l.dropWhile Char.isWhitespace) [] := by
    conv_lhs => rw [← List.takeWhile_append_dropWhile Char.isWhitespace l]
    exact pyWordsAux_ws_cons _ _ (fun c hc => List.mem_takeWhile_imp hc)
  rw [h1]
  set d := l.dropWhile Char.isWhitespace with hd
  have h2 : d = (d.reverse.dropWhile Char.isWhitespace).reverse ++
      (d.reverse.takeWhile Char.isWhitespace).reverse := by
    rw [← List.reverse_append, List.takeWhile_append_dropWhile, List.reverse_reverse]
  conv_rhs => rw [h2]
  rw [pyWordsAux_append_ws _ _ (fun c hc =>
    List.mem_takeWhile_imp (List.mem_reverse.mp hc))]

theorem norm_text_words (s : String) :
    _norm_text s = ⟨(List.intercalate [' '] (pyWords s.data)).map Char.toLower⟩ := by
  unfold _norm_text joinLower
  rw [pyWords_strip]

theorem intercalate_cons_cons (x y : List Char) (z : List (List Char)) :
    List.intercalate [' '] (x :: y :: z) = x ++ ' ' :: List.intercalate [' '] (y :: z) := by
  simp [List.intercalate, List.intersperse]

theorem map_toLower_intercalate (ws : List (List Char)) :
    (List.intercalate [' '] ws).map Char.toLower =
      List.intercalate [' '] (ws.map (List.map Char.toLower)) := by
  induction ws with
  | nil => rfl
  | cons a t ih =>
    cases t with
    | nil => simp [List.intercalate]
    | cons b u =>
      rw [intercalate_cons_cons a b u]
      simp only [List.map_cons]
      rw [intercalate_cons_cons (a.map Char.toLower) (b.map Char.toLower)
            (u.map (List.map Char.toLower))]
      simp only [List.map_append, List.map_cons]
      have hsp : Char.toLower ' ' = ' ' := by decide
      rw [hsp]
      simp only [List.map_cons] at ih
      rw [ih]

theorem norm_text_eq_of_toLower_eq (v w : String)
    (h : v.data.map Char.toLower = w.data.map Char.toLower) :
    _norm_text v = _norm_text w := by
  have key : ∀ u : String,
      _norm_text u = ⟨List.intercalate [' '] (pyWordsAux (u.data.map Char.toLower) [])⟩ := by
    intro u
    rw [norm_text_words, map_toLower_intercalate]
    have hw : pyWordsAux (u.data.map Char.toLower) [] =
        (pyWords u.data).map (List.map Char.toLower) := by
      simpa [pyWords] using pyWordsAux_map_toLower u.data []
    rw [← hw]
  rw [key v, key w, h]

theorem norm_text_pad (v : String) (a b : List Char)
    (ha : ∀ c ∈ a, c.isWhitespace = true) (hb : ∀ c ∈ b, c.isWhitespace = true) :
    _norm_text ⟨a ++ v.data ++ b⟩ = _norm_text v := by
  have hws : pyWords (a ++ v.data ++ b) = pyWords v.data := by
    rw [List.append_assoc]
    unfold pyWords
    rw [pyWordsAux_ws_cons a (v.data ++ b) ha, pyWordsAux_append_ws v.data b hb]
  rw [norm_text_words, norm_text_words]
  show (⟨(List.intercalate [' '] (pyWords (a ++ v.data ++ b))).map Char.toLower⟩ : String) = _
  rw [hws]

/-- C9: for the case-insensitive key fields (Student, Period, Course), the
dedup key is unchanged by altering letter case of the field value or by
adding leading/trailing whitespace to it. -/
theorem key_case_ws_insensitive :
    ∀ (r : Record) (f : String), f ∈ (["Student", "Period", "Course"] : List String) →
    ∀ (v w : String) (a b : List Char),
      (∀ c ∈ a, c.isWhitespace = true) → (∀ c ∈ b, c.isWhitespace = true) →
      w.data.map Char.toLower = v.data.map Char.toLower →
      key_from_row (rset r f ⟨a ++ w.data ++ b⟩) = key_from_row (rset r f v) := by
  intro r f hf v w a b ha hb hlw
  have hval : _norm_text ⟨a ++ w.data ++ b⟩ = _norm_text v :=
    (norm_text_pad w a b ha hb).trans (norm_text_eq_of_toLower_eq w v hlw)
  have hval2 : _norm_text ⟨a ++ (w.data ++ b)⟩ = _norm_text v := by
    rw [← List.append_assoc]; exact hval
  fin_cases hf <;> simp [key_from_row, rset, hval, hval2]

/-- C9 witness: `key({"Student": " jacob "}) = key({"Student": "Jacob"})`. -/
theorem key_case_ws_insensitive_witness :
    key_from_row (rset (fun _ => "") "Student" ⟨[' '] ++ ("jacob" : String).data ++ [' ']⟩) =
      key_from_row (rset (fun _ => "") "Student" "Jacob") :=
  key_case_ws_insensitive (fun _ => "") "Student" (by decide) "Jacob" "jacob"
    [' '] [' '] (by decide) (by decide) (by decide)

/-! ### C4: which fields make up the dedup key -/

/-- C4 counterexample: two records differing only in `Assignment` get equal
keys (the claim says different), and two records agreeing on all five
claimed key fields but differing in `Period` get different keys (the claim
says equal). -/
theorem key_fields_counterexample :
    (key_from_row (fun k => if k = "Assignment" then "HW1" else "x") =
       key_from_row (fun k => if k = "Assignment" then "HW2" else "x"))
  ∧ ((fun k => if k = "Assignment" then "HW1" else "x") "Assignment" ≠
       (fun k => if k = "Assignment" then "HW2" else "x") "Assignment")
  ∧ (key_from_row (fun k => if k = "Period" then "1" else "x") ≠
       key_from_row (fun k => if k = "Period" then "2" else "x"))
  ∧ ((fun k => if k = "Period" then "1" else "x") "Student" =
       (fun k => if k = "Period" then "2" else "x") "Student")
  ∧ ((fun k => if k = "Period" then "1" else "x") "Course" =
       (fun k => if k = "Period" then "2" else "x") "Course")
  ∧ ((fun k => if k = "Period" then "1" else "x") "Assignment" =
       (fun k => if k = "Period" then "2" else "x") "Assignment")
  ∧ ((fun k => if k = "Period" then "1" else "x") "DueDate" =
       (fun k => if k = "Period" then "2" else "x") "DueDate")
  ∧ ((fun k => if k = "Period" then "1" else "x") "AssignedDate" =
       (fun k => if k = "Period" then "2" else "x") "AssignedDate") := by
  refine ⟨by decide, by decide, by decide, rfl, rfl, rfl, rfl, rfl⟩

/-- C4 amended: the dedup key is derived from Student, Period, Course
(whitespace-collapsed and case-folded) and DueDate (date-normalized);
records agreeing on those four fields get equal keys, and the key never
depends on Assignment or AssignedDate. -/
theorem key_fields_amended :
    (∀ r1 r2 : Record, r1 "Student" = r2 "Student" → r1 "Period" = r2 "Period" →
       r1 "Course" = r2 "Course" → r1 "DueDate" = r2 "DueDate" →
       key_from_row r1 = key_from_row r2)
  ∧ (∀ (r : Record) (v : String),
       key_from_row (rset r "Assignment" v) = key_from_row r
     ∧ key_from_row (rset r "AssignedDate" v) = key_from_row r) := by
  constructor
  · intro r1 r2 h1 h2 h3 h4
    simp [key_from_row, h1, h2, h3, h4]
  · intro r v
    exact ⟨rfl, rfl⟩

/-- C4 witness: two concrete records agreeing on the four true key fields
but with different Assignment values get equal keys. -/
theorem key_fields_amended_witness :
    key_from_row (fun k => if k = "Assignment" then "HW1" else "") =
      key_from_row (fun k => if k = "Assignment" then "HW2" else "") :=
  key_fields_amended.1 _ _ rfl rfl rfl rfl

/-! ### C5: where the ImportedAt stamp comes from -/

/-- C5 counterexample: a record that arrives with a non-empty extractor
supplied `ImportedAt` keeps that value; the run timestamp is not used. -/
theorem stamp_counterexample :
    stamp_record (fun k => if k = "ImportedAt" then "2020-01-01 00:00:00" else "")
        "2025-10-12 09:00:00" "ImportedAt" = "2020-01-01 00:00:00"
  ∧ ("2020-01-01 00:00:00" : String) ≠ "2025-10-12 09:00:00" := by
  exact ⟨rfl, by decide⟩

/-- C5 amended: `r["ImportedAt"] = r.get("ImportedAt") or imported_at`
assigns the run timestamp only when the record carries no (or an empty)
`ImportedAt`; a non-empty extractor-supplied value is kept. -/
theorem stamp_amended : ∀ (r : Record) (t : String),
    stamp_record r t "ImportedAt" =
      if r "ImportedAt" = "" then t else r "ImportedAt" :=
  fun _ _ => rfl

/-! ### C10: the `run_scrape` return value mismatch -/

/-- C10: `main` binds the `(rows, metrics)` pair returned by `run_scrape`
to `rows`; the stamping loop then iterates over the pair's two components,
and already on the first component (the list of row lists) the statement
`r["ImportedAt"] = r.get("ImportedAt") or imported_at` fails with a
runtime type error (the attribute lookup `r.get` on a list), before any
sheet access, so the sheet is untouched and no rows are imported. -/
theorem scrape_result_mismatch :
    ∀ (rows : List (List String)) (metrics : List (String × Int)) (ws : Sheet) (t : String),
      main_on (run_scrape_result rows metrics) ws t =
        (ws, .error "AttributeError: list object has no attribute get") :=
  fun _ _ _ _ => rfl

/-! ### C6: compaction on degenerate sheets -/

/-- C6 counterexample: on a header-only sheet `dedupe_entire_sheet` does
reach `ws.clear()` (the destructive clear-and-rewrite is attempted; the
claim says it never is), even though it returns 0 and rebuilds identical
content. -/
theorem compact_degenerate_counterexample :
    dedupe_clears [HEADERS] = true
  ∧ (dedupe_entire_sheet [HEADERS]).2 = 0
  ∧ (dedupe_entire_sheet [HEADERS]).1 = [HEADERS] :=
  ⟨rfl, rfl, rfl⟩

/-- C6 amended: on sheets with 0 or 1 data rows compaction returns 0 and
rebuilds the same content, but the clear-and-rewrite is skipped only when
`get_all_values()` is entirely empty; any sheet with a header row is
cleared and rewritten (to identical content). -/
theorem compact_degenerate_amended :
    ∀ (h r : Row),
      dedupe_entire_sheet [h] = ([h], 0)
    ∧ dedupe_entire_sheet [h, r] = ([h, r], 0)
    ∧ dedupe_entire_sheet ([] : Sheet) = ([], 0)
    ∧ dedupe_clears ([] : Sheet) = false
    ∧ dedupe_clears [h] = true :=
  fun _ _ => ⟨rfl, rfl, rfl, rfl, rfl⟩

/-! ### C7: the header row is not a maintained invariant -/

/-- Lemma: `dedupe_entire_sheet` writes back the header it found. -/
theorem dedupe_head_preserved (ws : Sheet) (h : Row) (hh : ws.head? = some h) :
    ((dedupe_entire_sheet ws).1).head? = some h := by
  cases ws with
  | nil => simp at hh
  | cons h0 d =>
    simp only [List.head?_cons, Option.some.injEq] at hh
    subst hh
    rfl

/-- C7 counterexample: an existing worksheet whose header row is not the
canonical column list keeps that header across a full import run (the
claim says it is rewritten to the canonical list). -/
theorem header_not_rewritten_counterexample :
    (import_run [] (ensure_worksheet (some [["Foo"]]))).1 = [["Foo"]]
  ∧ (["Foo"] : Row) ≠ HEADERS :=
  ⟨rfl, by decide⟩

/-- C7 amended: the importer never rewrites an existing worksheet's
header: after a run the header row equals whatever header the sheet
already had (`ensure_worksheet` writes the canonical header only when it
creates the worksheet, and `dedupe_entire_sheet` rewrites `values[0]`
verbatim). -/
theorem header_preserved_amended :
    ∀ (records : List Record) (h : Row) (rows : List Row),
      ((import_run records (h :: rows)).1).head? = some h := by
  intro records h rows
  simp only [import_run]
  apply dedupe_head_preserved
  split <;> simp

/-! ### C8: ragged existing rows are safe -/

/-- Lemma: `getD` into the all-default padding returns the default. -/
theorem getD_replicate_self (n m : Nat) (a : String) :
    (List.replicate n a).getD m a = a := by
  induction n generalizing m with
  | zero => rfl
  | succ k ih =>
    cases m with
    | zero => rfl
    | succ j => exact ih j

/-- C8: reading a cell through the header map treats cells missing from a
short row exactly as empty strings (padding a row with empty cells never
changes any lookup), and every data row, however ragged, contributes its
key to the existing-key index. -/
theorem ragged_rows_safe :
    (∀ (header : List String) (row : Row) (name : String) (n : Nat),
        cellAt header (row ++ List.replicate n "") name = cellAt header row name)
  ∧ (∀ (header : List String) (rows : List Row) (row : Row), row ∈ rows →
        rowKey header row ∈ get_existing_keys (header :: rows)) := by
  constructor
  · intro header row name n
    unfold cellAt
    simp only [List.length_append, List.length_replicate]
    by_cases h0 : 0 ≤ colIdx header name
    · by_cases h1 : colIdx header name < (row.length : Int)
      · rw [if_pos ⟨h0, by push_cast; omega⟩, if_pos ⟨h0, h1⟩]
        exact List.getD_append _ _ _ _ (by omega)
      · by_cases h2 : colIdx header name < ((row.length : Int) + (n : Int))
        · rw [if_pos ⟨h0, by push_cast; omega⟩, if_neg (fun hc => h1 hc.2)]
          rw [List.getD_append_right _ _ _ _ (by omega)]
          exact getD_replicate_self n _ ""
        · rw [if_neg (fun hc => h2 (by push_cast at hc; exact hc.2)),
              if_neg (fun hc => h1 hc.2)]
    · rw [if_neg (fun hc => h0 hc.1), if_neg (fun hc => h0 hc.1)]
  · intro header rows row hrow
    simpa [get_existing_keys] using List.mem_map_of_mem (rowKey header) hrow

/-- C8 witness: a concrete sheet whose single data row has only 2 of the
14 cells still yields its key in the index, and its missing DueDate cell
reads as the empty string. -/
theorem ragged_rows_safe_witness :
    rowKey HEADERS ["2024-01-01 00:00:00", "bob"] ∈
      get_existing_keys (HEADERS :: [["2024-01-01 00:00:00", "bob"]])
  ∧ cellAt HEADERS (["2024-01-01 00:00:00", "bob"] ++ List.replicate 12 "") "DueDate" =
      cellAt HEADERS ["2024-01-01 00:00:00", "bob"] "DueDate" :=
  ⟨ragged_rows_safe.2 HEADERS [["2024-01-01 00:00:00", "bob"]]
      ["2024-01-01 00:00:00", "bob"] (List.mem_singleton.mpr rfl),
   ragged_rows_safe.1 HEADERS ["2024-01-01 00:00:00", "bob"] "DueDate" 12⟩

/-! ### Comparison and sorting lemmas -/

theorem charListLt_asymm : ∀ {xs ys : List Char},
    charListLt xs ys = true → charListLt ys xs = false := by
  intro xs
  induction xs with
  | nil =>
    intro ys h
    cases ys with
    | nil => simp [charListLt] at h
    | cons b bs => rfl
  | cons a as ih =>
    intro ys h
    cases ys with
    | nil => simp [charListLt] at h
    | cons b bs =>
      by_cases hab : a < b
      · have hba : ¬b < a := lt_asymm hab
        simp [charListLt, hba, hab]
      · by_cases hba : b < a
        · simp [charListLt, hab, hba] at h
        · simp only [charListLt, if_neg hab, if_neg hba] at h
          simp only [charListLt, if_neg hba, if_neg hab]
          exact ih h

theorem pyStrLt_asymm {a b : String} (h : pyStrLt a b = true) : pyStrLt b a = false :=
  charListLt_asymm h

theorem insertByTs_perm (tsOf : Row → String) (x : Row) (l : List Row) :
    (insertByTs tsOf x l).Perm (x :: l) := by
  induction l with
  | nil => exact List.Perm.refl _
  | cons y ys ih =>
    unfold insertByTs
    split
    · exact (ih.cons y).trans (List.Perm.swap x y ys)
    · exact List.Perm.refl _

theorem sortByTsDesc_perm (tsOf : Row → String) (l : List Row) :
    (sortByTsDesc tsOf l).Perm l := by
  induction l with
  | nil => exact List.Perm.refl _
  | cons x xs ih =>
    unfold sortByTsDesc
    exact (insertByTs_perm tsOf x (sortByTsDesc tsOf xs)).trans (ih.cons x)

theorem insertByTs_sorted (tsOf : Row → String) (x : Row) (l : List Row)
    (hl : RowsSortedDesc tsOf l) : RowsSortedDesc tsOf (insertByTs tsOf x l) := by
  induction l with
  | nil => exact List.chain'_singleton x
  | cons y ys ih =>
    unfold insertByTs
    by_cases hxy : pyStrLt (tsOf x) (tsOf y) = true
    · rw [if_pos hxy]
      have htail : RowsSortedDesc tsOf (insertByTs tsOf x ys) :=
        ih ((List.chain'_cons'.mp hl).2)
      refine List.chain'_cons'.mpr ⟨?_, htail⟩
      intro z hz
      cases ys with
      | nil =>
        simp only [insertByTs, List.head?_cons, Option.mem_def, Option.some.injEq] at hz
        subst hz
        exact pyStrLt_asymm hxy
      | cons w ws =>
        simp only [insertByTs] at hz
        by_cases hxw : pyStrLt (tsOf x) (tsOf w) = true
        · rw [if_pos hxw] at hz
          simp only [List.head?_cons, Option.mem_def, Option.some.injEq] at hz
          subst hz
          exact (List.chain'_cons.mp hl).1
        · rw [if_neg hxw] at hz
          simp only [List.head?_cons, Option.mem_def, Option.some.injEq] at hz
          subst hz
          exact pyStrLt_asymm hxy
    · rw [if_neg hxy]
      exact List.chain'_cons.mpr ⟨Bool.not_eq_true _ ▸ hxy, hl⟩

theorem sortByTsDesc_sorted (tsOf : Row → String) (l : List Row) :
    RowsSortedDesc tsOf (sortByTsDesc tsOf l) := by
  induction l with
  | nil => exact List.chain'_nil
  | cons x xs ih => exact insertByTs_sorted tsOf x _ ih

theorem sortByTsDesc_fixed (tsOf : Row → String) :
    ∀ l : List Row, RowsSortedDesc tsOf l → sortByTsDesc tsOf l = l := by
  intro l
  induction l with
  | nil => intro _; rfl
  | cons x xs ih =>
    intro hl
    unfold sortByTsDesc
    rw [ih hl.tail]
    cases xs with
    | nil => rfl
    | cons y ys =>
      unfold insertByTs
      rw [if_neg (by rw [(List.chain'_cons.mp hl).1]; simp)]

/-! ### Winners-dict lemmas -/

theorem lookupKey_eq_none_iff (w : List (DedupKey × Row)) (k : DedupKey) :
    lookupKey w k = none ↔ k ∉ w.map Prod.fst := by
  induction w with
  | nil => simp [lookupKey]
  | cons p rest ih =>
    obtain ⟨k1, v1⟩ := p
    by_cases h : k1 = k
    · subst h
      simp [lookupKey]
    · simp [lookupKey, h, ih, Ne.symm h]

theorem lookupKey_some_mem {w : List (DedupKey × Row)} {k : DedupKey} {e : Row}
    (h : lookupKey w k = some e) : k ∈ w.map Prod.fst := by
  by_contra hmem
  rw [← lookupKey_eq_none_iff] at hmem
  rw [h] at hmem
  cases hmem

theorem storeKey_fst (w : List (DedupKey × Row)) (k : DedupKey) (v : Row) :
    (storeKey w k v).map Prod.fst = addNew (w.map Prod.fst) k := by
  induction w with
  | nil => simp [storeKey, addNew]
  | cons p rest ih =>
    obtain ⟨k1, v1⟩ := p
    by_cases h : k1 = k
    · subst h
      simp [storeKey, addNew]
    · simp only [storeKey, if_neg h, List.map_cons, ih, addNew]
      by_cases h2 : k ∈ rest.map Prod.fst
      · rw [if_pos h2, if_pos (by simp [h2])]
      · rw [if_neg h2, if_neg (by simp [h2, Ne.symm h]), List.cons_append]

theorem mem_storeKey {w : List (DedupKey × Row)} {k : DedupKey} {v : Row} :
    ∀ p ∈ storeKey w k v, p = (k, v) ∨ p ∈ w := by
  induction w with
  | nil =>
    intro p hp
    simp only [storeKey, List.mem_singleton] at hp
    exact Or.inl hp
  | cons q rest ih =>
    obtain ⟨k1, v1⟩ := q
    intro p hp
    by_cases h : k1 = k
    · subst h
      simp only [storeKey, eq_self_iff_true, if_true, List.mem_cons] at hp
      rcases hp with h1 | h1
      · exact Or.inl h1
      · exact Or.inr (List.mem_cons_of_mem _ h1)
    · simp only [storeKey, if_neg h, List.mem_cons] at hp
      rcases hp with h1 | h1
      · exact Or.inr (by simp [h1])
      · rcases ih p h1 with h2 | h2
        · exact Or.inl h2
        · exact Or.inr (List.mem_cons_of_mem _ h2)

theorem storeKey_length_le (w : List (DedupKey × Row)) (k : DedupKey) (v : Row) :
    (storeKey w k v).length ≤ w.length + 1 := by
  induction w with
  | nil => simp [storeKey]
  | cons q rest ih =>
    obtain ⟨k1, v1⟩ := q
    by_cases h : k1 = k
    · subst h
      simp [storeKey]
    · simp only [storeKey, if_neg h, List.length_cons]
      omega

/-! ### `addNew` fold lemmas -/

theorem mem_addNew (ks : List DedupKey) (k q : DedupKey) :
    q ∈ addNew ks k ↔ q ∈ ks ∨ q = k := by
  unfold addNew
  split
  · next h =>
    constructor
    · exact Or.inl
    · rintro (hq | hq)
      · exact hq
      · exact hq ▸ h
  · simp

theorem addNew_nodup (ks : List DedupKey) (k : DedupKey) (h : ks.Nodup) :
    (addNew ks k).Nodup := by
  unfold addNew
  split
  · exact h
  · next hk =>
    exact List.Nodup.append h (List.nodup_singleton k)
      (fun a ha hb => hk ((List.mem_singleton.mp hb) ▸ ha))

theorem mem_foldl_addNew (l : List DedupKey) :
    ∀ (acc : List DedupKey) (q : DedupKey),
      q ∈ l.foldl addNew acc ↔ q ∈ acc ∨ q ∈ l := by
  induction l with
  | nil => simp
  | cons k ks ih =>
    intro acc q
    rw [List.foldl_cons, ih, mem_addNew]
    simp [or_assoc, or_comm, or_left_comm]

theorem nodup_foldl_addNew (l : List DedupKey) :
    ∀ acc : List DedupKey, acc.Nodup → (l.foldl addNew acc).Nodup := by
  induction l with
  | nil => intro acc h; exact h
  | cons k ks ih =>
    intro acc h
    exact ih _ (addNew_nodup acc k h)

theorem firstKeys_mem_iff (l : List DedupKey) (q : DedupKey) :
    q ∈ firstKeys l ↔ q ∈ l := by
  unfold firstKeys
  rw [mem_foldl_addNew]
  simp

theorem firstKeys_nodup (l : List DedupKey) : (firstKeys l).Nodup :=
  nodup_foldl_addNew l [] List.nodup_nil

/-! ### The `dedupe_entire_sheet` loop invariants -/

theorem dedupeStep_none (header : List String) (w : List (DedupKey × Row)) (n : Nat)
    (r : Row) (h : lookupKey w (rowKey header r) = none) :
    dedupeStep header (w, n) r = (storeKey w (rowKey header r) r, n) := by
  simp [dedupeStep, h]

theorem dedupeStep_some_empty (header : List String) (w : List (DedupKey × Row)) (n : Nat)
    (r e : Row) (h : lookupKey w (rowKey header r) = some e) (he : e = []) :
    dedupeStep header (w, n) r = (storeKey w (rowKey header r) r, n) := by
  simp [dedupeStep, h, he]

theorem dedupeStep_some_newer (header : List String) (w : List (DedupKey × Row)) (n : Nat)
    (r e : Row) (h : lookupKey w (rowKey header r) = some e) (he : e ≠ [])
    (hts : pyStrLt (cellAt header e "ImportedAt") (cellAt header r "ImportedAt") = true) :
    dedupeStep header (w, n) r = (storeKey w (rowKey header r) r, n) := by
  simp [dedupeStep, h, he, hts]

theorem dedupeStep_some_skip (header : List String) (w : List (DedupKey × Row)) (n : Nat)
    (r e : Row) (h : lookupKey w (rowKey header r) = some e) (he : e ≠ [])
    (hts : pyStrLt (cellAt header e "ImportedAt") (cellAt header r "ImportedAt") = false) :
    dedupeStep header (w, n) r = (w, n + 1) := by
  simp [dedupeStep, h, he, hts]

/-- Case split on one loop iteration: either the row is stored under its
key (insert or replace), or it is skipped and counted. -/
theorem dedupeStep_cases (header : List String) (w : List (DedupKey × Row)) (n : Nat)
    (r : Row) :
    dedupeStep header (w, n) r = (storeKey w (rowKey header r) r, n)
  ∨ (dedupeStep header (w, n) r = (w, n + 1) ∧ rowKey header r ∈ w.map Prod.fst) := by
  cases h : lookupKey w (rowKey header r) with
  | none => exact Or.inl (dedupeStep_none header w n r h)
  | some e =>
    by_cases he : e = []
    · exact Or.inl (dedupeStep_some_empty header w n r e h he)
    · cases hts : pyStrLt (cellAt header e "ImportedAt") (cellAt header r "ImportedAt") with
      | true => exact Or.inl (dedupeStep_some_newer header w n r e h he hts)
      | false =>
        exact Or.inr ⟨dedupeStep_some_skip header w n r e h he hts, lookupKey_some_mem h⟩

theorem dedupe_fold_fst (header : List String) (rows : List Row) :
    ∀ (w : List (DedupKey × Row)) (n : Nat),
      ((rows.foldl (dedupeStep header) (w, n)).1).map Prod.fst =
        (rows.map (rowKey header)).foldl addNew (w.map Prod.fst) := by
  induction rows with
  | nil => intro w n; rfl
  | cons r rest ih =>
    intro w n
    rw [List.foldl_cons, List.map_cons, List.foldl_cons]
    rcases dedupeStep_cases header w n r with h | ⟨h, hmem⟩
    · rw [h, ih, storeKey_fst]
    · rw [h, ih]
      unfold addNew
      rw [if_pos hmem]

theorem dedupe_fold_entries (header : List String) (rows : List Row) :
    ∀ (w : List (DedupKey × Row)) (n : Nat),
      (∀ p ∈ w, rowKey header p.2 = p.1) →
      ∀ p ∈ (rows.foldl (dedupeStep header) (w, n)).1, rowKey header p.2 = p.1 := by
  induction rows with
  | nil => intro w n hw; exact hw
  | cons r rest ih =>
    intro w n hw
    rw [List.foldl_cons]
    rcases dedupeStep_cases header w n r with h | ⟨h, _⟩
    · rw [h]
      refine ih _ n ?_
      intro p hp
      rcases mem_storeKey p hp with h1 | h1
      · rw [h1]
      · exact hw p h1
    · rw [h]
      exact ih _ (n + 1) hw

theorem dedupe_fold_count (header : List String) (rows : List Row) :
    ∀ (w : List (DedupKey × Row)) (n : Nat),
      (rows.foldl (dedupeStep header) (w, n)).2 +
          ((rows.foldl (dedupeStep header) (w, n)).1).length ≤
        n + w.length + rows.length := by
  induction rows with
  | nil => intro w n; simp
  | cons r rest ih =>
    intro w n
    rw [List.foldl_cons]
    rcases dedupeStep_cases header w n r with h | ⟨h, _⟩
    · rw [h]
      have := ih (storeKey w (rowKey header r) r) n
      have hlen := storeKey_length_le w (rowKey header r) r
      simp only [List.length_cons]
      omega
    · rw [h]
      have := ih w (n + 1)
      simp only [List.length_cons]
      omega

/-! ### C3: what compaction guarantees, and what its count means -/

/-- C3 counterexample: a sheet with exactly two rows sharing one key,
where the second row's ImportedAt is strictly newer, compacts to one data
row (row count drops by 1) yet `dedupe_entire_sheet` returns 0, not
`rows_before - distinct_keys_before = 1`: the replaced row is never
counted. -/
theorem compaction_count_counterexample :
    (dedupe_entire_sheet (HEADERS ::
        [["2024-01-01 00:00:00", "bob"], ["2025-01-01 00:00:00", "bob"]])).2 = 0
  ∧ rowKey HEADERS ["2024-01-01 00:00:00", "bob"] =
      rowKey HEADERS ["2025-01-01 00:00:00", "bob"]
  ∧ ((dedupe_entire_sheet (HEADERS ::
        [["2024-01-01 00:00:00", "bob"], ["2025-01-01 00:00:00", "bob"]])).1).length = 2
  ∧ (0 : Nat) ≠ 2 - 1 :=
  ⟨by decide, by decide, by decide, by decide⟩

/-- C3 amended: compaction leaves exactly one row per key present before
(the surviving rows' keys are a permutation of the distinct keys of the
rows before, so the final data-row count is the distinct-key count), but
the returned count only satisfies `removed ≤ rows_before - distinct_keys`:
a row that loses to an already-stored row with an ImportedAt at least as
new is counted, while a stored row displaced by a strictly newer one is
not. On a two-row sheet sharing one key it returns 1 exactly in the
not-strictly-newer case. -/
theorem compaction_amended :
    (∀ (header : List String) (rows : List Row),
       ∃ rows2 : List Row,
         (dedupe_entire_sheet (header :: rows)).1 = header :: rows2
       ∧ (rows2.map (rowKey header)).Perm (firstKeys (rows.map (rowKey header)))
       ∧ rows2.length = (firstKeys (rows.map (rowKey header))).length
       ∧ (dedupe_entire_sheet (header :: rows)).2 +
           (firstKeys (rows.map (rowKey header))).length ≤ rows.length)
  ∧ (∀ (header : List String) (rows : List Row) (k : DedupKey),
       k ∈ firstKeys (rows.map (rowKey header)) ↔ k ∈ rows.map (rowKey header))
  ∧ (∀ (header : List String) (rows : List Row),
       (firstKeys (rows.map (rowKey header))).Nodup)
  ∧ (∀ (header : List String) (r1 r2 : Row), r1 ≠ [] →
       rowKey header r1 = rowKey header r2 →
       pyStrLt (cellAt header r1 "ImportedAt") (cellAt header r2 "ImportedAt") = false →
       (dedupe_entire_sheet (header :: [r1, r2])).2 = 1) := by
  refine ⟨?_, ?_, ?_, ?_⟩
  · intro header rows
    refine ⟨_, rfl, ?_, ?_, ?_⟩
    all_goals
      have hres := dedupe_fold_fst header rows [] 0
      simp only [List.map_nil] at hres
      have hent := dedupe_fold_entries header rows [] 0 (by intro p hp; cases hp)
      have hmapkeys :
          ((rows.foldl (dedupeStep header) ([], 0)).1.map Prod.snd).map (rowKey header) =
            ((rows.foldl (dedupeStep header) ([], 0)).1).map Prod.fst := by
        rw [List.map_map]
        exact List.map_congr_left (fun p hp => hent p hp)
      have hperm :
          ((sortByTsDesc (fun r => cellAt header r "ImportedAt")
              ((rows.foldl (dedupeStep header) ([], 0)).1.map Prod.snd)).map
            (rowKey header)).Perm (firstKeys (rows.map (rowKey header))) := by
        refine (List.Perm.map (rowKey header) (sortByTsDesc_perm _ _)).trans ?_
        rw [hmapkeys, hres]
        exact List.Perm.refl _
    · exact hperm
    · have := hperm.length_eq
      simpa using this
    · have hcount := dedupe_fold_count header rows [] 0
      simp only [List.length_nil] at hcount
      have hlen : ((rows.foldl (dedupeStep header) ([], 0)).1).length =
          (firstKeys (rows.map (rowKey header))).length := by
        unfold firstKeys
        rw [← hres]
        exact (List.length_map _ _).symm
      show (rows.foldl (dedupeStep header) ([], 0)).2 + _ ≤ _
      omega
  · intro header rows k
    exact firstKeys_mem_iff _ k
  · intro header rows
    exact firstKeys_nodup _
  · intro header r1 r2 hne hk hts
    have h1 : [r1, r2].foldl (dedupeStep header) ([], 0) = ([(rowKey header r1, r1)], 1) := by
      rw [List.foldl_cons, List.foldl_cons, List.foldl_nil]
      rw [dedupeStep_none header [] 0 r1 rfl]
      have hlk : lookupKey (storeKey [] (rowKey header r1) r1) (rowKey header r2) = some r1 := by
        show (if rowKey header r1 = rowKey header r2 then some r1 else none) = some r1
        rw [if_pos hk]
      rw [dedupeStep_some_skip header _ 0 r2 r1 hlk hne hts]
      rfl
    show ([r1, r2].foldl (dedupeStep header) ([], 0)).2 = 1
    rw [h1]

/-- C3 witness: on a concrete two-duplicate sheet with equal timestamps
the compaction count is 1. -/
theorem compaction_amended_witness :
    (dedupe_entire_sheet (HEADERS ::
        [["2024-01-01 00:00:00", "bob"], ["2024-01-01 00:00:00", "bob"]])).2 = 1 :=
  compaction_amended.2.2.2 HEADERS ["2024-01-01 00:00:00", "bob"]
    ["2024-01-01 00:00:00", "bob"] (by decide) (by decide) (by decide)

/-! ### C2: the import filter and in-batch duplicates -/

/-- C2 counterexample: in a batch of 5 records where the 3rd and 4th share
a key that is not on the sheet, all 5 pass the filter (`imported = 5`, not
4); the in-batch duplicate is only collapsed later, by the full-sheet
compaction (final sheet: header plus 4 data rows). -/
theorem import_filter_counterexample :
    (import_run
      [fun k => if k = "Student" then "amy" else "",
       fun k => if k = "Student" then "ben" else "",
       fun k => if k = "Student" then "cat" else if k = "Teacher" then "t1" else "",
       fun k => if k = "Student" then "cat" else if k = "Teacher" then "t2" else "",
       fun k => if k = "Student" then "dan" else ""] [HEADERS]).2 = 5
  ∧ (5 : Nat) ≠ 4
  ∧ ((import_run
      [fun k => if k = "Student" then "amy" else "",
       fun k => if k = "Student" then "ben" else "",
       fun k => if k = "Student" then "cat" else if k = "Teacher" then "t1" else "",
       fun k => if k = "Student" then "cat" else if k = "Teacher" then "t2" else "",
       fun k => if k = "Student" then "dan" else ""] [HEADERS]).1).length = 5 :=
  ⟨by decide, by decide, by decide⟩

/-- C2 amended: the filter admits a record exactly when its key is not in
the index built from the sheet *before* the batch; admitted keys are not
added to the index, so admission of each record is independent of the
rest of the batch (the count is additive across any split) and in-batch
duplicates are all appended and all counted. -/
theorem import_filter_amended :
    (∀ (h : Row) (rows : List Row) (records : List Record),
       (import_run records (h :: rows)).2 =
         records.countP (fun r => decide (key_from_row r ∉ get_existing_keys (h :: rows))))
  ∧ (∀ (h : Row) (rows : List Row) (a b : List Record),
       (import_run (a ++ b) (h :: rows)).2 =
         (import_run a (h :: rows)).2 + (import_run b (h :: rows)).2) := by
  constructor
  · intro h rows records
    simp [import_run, List.countP_eq_length_filter]
  · intro h rows a b
    simp [import_run, List.filter_append]

/-! ### C1: idempotence of the import pipeline -/

theorem get_existing_keys_cons (header : List String) (rows : List Row) :
    get_existing_keys (header :: rows) = rows.map (rowKey header) := rfl

/-- Reading an appended record row back through the canonical header
recovers the record's key. -/
theorem rowKey_matrix (r : Record) :
    rowKey HEADERS (HEADERS.map (fun h => r h)) = key_from_row r := rfl

theorem matrix_keys (recs : List Record) :
    (rows_to_matrix recs).map (rowKey HEADERS) = recs.map key_from_row := by
  unfold rows_to_matrix
  rw [List.map_map]
  exact List.map_congr_left (fun r _ => rowKey_matrix r)

/-- The compacted sheet: header preserved, body a stable-sorted
one-row-per-key selection whose keys are the distinct input keys. -/
theorem dedupe_shape (header : List String) (rows : List Row) :
    ∃ rows2 : List Row,
      (dedupe_entire_sheet (header :: rows)).1 = header :: rows2
    ∧ (rows2.map (rowKey header)).Perm (firstKeys (rows.map (rowKey header)))
    ∧ RowsSortedDesc (fun r => cellAt header r "ImportedAt") rows2 := by
  refine ⟨_, rfl, ?_, sortByTsDesc_sorted _ _⟩
  have hres := dedupe_fold_fst header rows [] 0
  simp only [List.map_nil] at hres
  have hent := dedupe_fold_entries header rows [] 0 (by intro p hp; cases hp)
  have hmapkeys :
      ((rows.foldl (dedupeStep header) ([], 0)).1.map Prod.snd).map (rowKey header) =
        ((rows.foldl (dedupeStep header) ([], 0)).1).map Prod.fst := by
    rw [List.map_map]
    exact List.map_congr_left (fun p hp => hent p hp)
  refine (List.Perm.map (rowKey header) (sortByTsDesc_perm _ _)).trans ?_
  rw [hmapkeys, hres]
  exact List.Perm.refl _

/-- Membership in the existing-key index is preserved by compaction. -/
theorem mem_keys_dedupe (header : List String) (rows : List Row) (k : DedupKey) :
    k ∈ get_existing_keys ((dedupe_entire_sheet (header :: rows)).1) ↔
      k ∈ rows.map (rowKey header) := by
  obtain ⟨rows2, hshape, hperm, _⟩ := dedupe_shape header rows
  rw [hshape, get_existing_keys_cons]
  rw [hperm.mem_iff]
  exact firstKeys_mem_iff _ k

theorem storeKey_not_mem (w : List (DedupKey × Row)) (k : DedupKey) (v : Row)
    (h : k ∉ w.map Prod.fst) : storeKey w k v = w ++ [(k, v)] := by
  induction w with
  | nil => rfl
  | cons q rest ih =>
    obtain ⟨k1, v1⟩ := q
    simp only [List.map_cons, List.mem_cons] at h
    push_neg at h
    simp only [storeKey, List.cons_append]
    rw [ih h.2, if_neg (fun hc => h.1 hc.symm)]

/-- Folding rows whose keys are pairwise distinct and all absent from the
accumulated dict just appends them, skipping nothing. -/
theorem fold_all_new (header : List String) (rows : List Row) :
    ∀ (w : List (DedupKey × Row)) (n : Nat),
      (rows.map (rowKey header)).Nodup →
      (∀ r ∈ rows, rowKey header r ∉ w.map Prod.fst) →
      rows.foldl (dedupeStep header) (w, n) =
        (w ++ rows.map (fun r => (rowKey header r, r)), n) := by
  induction rows with
  | nil => intro w n _ _; simp
  | cons r rest ih =>
    intro w n hnd hfresh
    rw [List.foldl_cons]
    have hlk : lookupKey w (rowKey header r) = none :=
      (lookupKey_eq_none_iff w _).mpr (hfresh r (List.mem_cons_self r rest))
    rw [dedupeStep_none header w n r hlk,
        storeKey_not_mem w _ r (hfresh r (List.mem_cons_self r rest))]
    simp only [List.map_cons, List.nodup_cons] at hnd
    rw [ih (w ++ [(rowKey header r, r)]) n hnd.2 ?_]
    · simp
    · intro r2 hr2
      simp only [List.map_append, List.map_cons, List.map_nil, List.mem_append,
        List.mem_singleton]
      push_neg
      refine ⟨hfresh r2 (List.mem_cons_of_mem r hr2), ?_⟩
      intro hc
      exact hnd.1 (hc ▸ List.mem_map_of_mem (rowKey header) hr2)

/-- Compaction is the identity (and counts 0) on a sheet whose body
already has pairwise-distinct keys and is sorted by descending
ImportedAt — e.g. any sheet compaction itself just produced. -/
theorem dedupe_clean (header : List String) (rows : List Row)
    (hnd : (rows.map (rowKey header)).Nodup)
    (hs : RowsSortedDesc (fun r => cellAt header r "ImportedAt") rows) :
    dedupe_entire_sheet (header :: rows) = (header :: rows, 0) := by
  have hfold := fold_all_new header rows [] 0 hnd (by simp)
  have h1 : ((rows.foldl (dedupeStep header) ([], 0)).1) =
      rows.map (fun r => (rowKey header r, r)) := by
    rw [hfold]
    exact List.nil_append _
  have h2 : ((rows.foldl (dedupeStep header) ([], 0)).2) = 0 := by
    rw [hfold]
  show (header :: sortByTsDesc _ (((rows.foldl (dedupeStep header) ([], 0)).1).map Prod.snd),
        (rows.foldl (dedupeStep header) ([], 0)).2) = (header :: rows, 0)
  rw [h1, h2]
  simp only [List.map_map]
  have hid : rows.map (Prod.snd ∘ fun r => (rowKey header r, r)) = rows :=
    List.map_id rows
  rw [hid, sortByTsDesc_fixed _ rows hs]

/-- Lemma: `import_run`, unfolded. -/
theorem import_run_eq (records : List Record) (ws : Sheet) :
    import_run records ws =
      ((dedupe_entire_sheet
          (if (records.filter (fun r => decide (key_from_row r ∉ get_existing_keys ws))).isEmpty
           then ws
           else ws ++ rows_to_matrix
             (records.filter (fun r => decide (key_from_row r ∉ get_existing_keys ws))))).1,
       (records.filter (fun r => decide (key_from_row r ∉ get_existing_keys ws))).length) := rfl

/-- C1 counterexample: against an initial sheet whose header is not the
canonical column list (here a single column "Foo"), appended rows are
read back misaligned, so re-importing the same one-record batch appends
again: the second run's imported count is 1, not 0. -/
theorem import_idempotent_counterexample :
    (import_run [fun k => if k = "Student" then "bob" else ""]
      ((import_run [fun k => if k = "Student" then "bob" else ""] [["Foo"]]).1)).2 = 1
  ∧ (1 : Nat) ≠ 0 :=
  ⟨by decide, by decide⟩

/-- C1 amended: against an initial sheet whose header row is the canonical
column list, importing the same batch twice (each run rebuilding the
existing-key index, filtering, appending, compacting) gives the same
final sheet as importing it once, and the second run imports 0 records. -/
theorem import_idempotent :
    ∀ (records : List Record) (rows : List Row),
      (import_run records ((import_run records (HEADERS :: rows)).1)).1 =
        (import_run records (HEADERS :: rows)).1
    ∧ (import_run records ((import_run records (HEADERS :: rows)).1)).2 = 0 := by
  intro records rows
  -- First run: the appended sheet body.
  have hws1 : (if (records.filter
        (fun r => decide (key_from_row r ∉ get_existing_keys (HEADERS :: rows)))).isEmpty
      then HEADERS :: rows
      else (HEADERS :: rows) ++ rows_to_matrix (records.filter
        (fun r => decide (key_from_row r ∉ get_existing_keys (HEADERS :: rows))))) =
      HEADERS :: (rows ++ rows_to_matrix (records.filter
        (fun r => decide (key_from_row r ∉ get_existing_keys (HEADERS :: rows))))) := by
    by_cases he : (records.filter
        (fun r => decide (key_from_row r ∉ get_existing_keys (HEADERS :: rows)))).isEmpty
    · rw [if_pos he, List.isEmpty_iff.mp he]
      simp [rows_to_matrix]
    · rw [if_neg he, List.cons_append]
  set to_add := records.filter
    (fun r => decide (key_from_row r ∉ get_existing_keys (HEADERS :: rows))) with hta
  set d1 := rows ++ rows_to_matrix to_add with hd1
  have hp1 : (import_run records (HEADERS :: rows)).1 =
      (dedupe_entire_sheet (HEADERS :: d1)).1 := by
    rw [import_run_eq, ← hta, hws1]
  -- Every record's key is on the compacted sheet.
  have hcov : ∀ r ∈ records,
      key_from_row r ∈ get_existing_keys ((import_run records (HEADERS :: rows)).1) := by
    intro r hr
    rw [hp1, mem_keys_dedupe]
    rw [hd1, List.map_append, List.mem_append, matrix_keys]
    by_cases hk : key_from_row r ∈ get_existing_keys (HEADERS :: rows)
    · rw [get_existing_keys_cons] at hk
      exact Or.inl hk
    · refine Or.inr (List.mem_map_of_mem key_from_row ?_)
      rw [hta, List.mem_filter]
      exact ⟨hr, by simpa using hk⟩
  -- Second run filters everything out.
  have hto2 : records.filter (fun r => decide (key_from_row r ∉
      get_existing_keys ((import_run records (HEADERS :: rows)).1))) = [] := by
    rw [List.filter_eq_nil_iff]
    intro r hr
    simpa using hcov r hr
  -- The compacted body is clean: distinct keys, sorted.
  obtain ⟨rows2, hshape, hperm, hsort⟩ := dedupe_shape HEADERS d1
  have hp1s : (import_run records (HEADERS :: rows)).1 = HEADERS :: rows2 := by
    rw [hp1, hshape]
  have hnd : (rows2.map (rowKey HEADERS)).Nodup :=
    (hperm.nodup_iff).mpr (firstKeys_nodup _)
  have hclean := dedupe_clean HEADERS rows2 hnd hsort
  constructor
  · rw [import_run_eq, hto2]
    simp only [List.isEmpty_nil, if_true]
    conv_lhs => rw [hp1s, hclean]
    rw [hp1s]
  · rw [import_run_eq, hto2]
    rfl

end GradesPipeline
